import Mathlib

/-!
Verification of the snakes-and-ladders benchmark core
(`snakes_and_ladders.py`), shallowly embedded in Lean 4.

Modelling conventions:
* A `Game` is a list of moves `(roll, resulting position)`, exactly as in
  the Python source.
* The random stream is made explicit: `random.random()` draws become a
  list of rationals in `[0, 1)`, and the dice-roll list derived from it is
  passed to the game loop.  The unbounded `while True:` loop becomes a
  structurally recursive function over the (finite) supply of rolls which
  returns `none` when the supply runs out before the game is won.
* `Counter` histograms become total functions `Nat → Nat` (an absent key
  is a zero count, matching `Counter` addition semantics for non-negative
  counts); `float` time values become exact rationals; code that raises
  becomes `Option`/`Except`.
* Wall-clock readings (`time.perf_counter`) are environment inputs, so
  each timed batch carries its measured elapsed value as an explicit
  parameter.
-/

/-- `Game = List[Tuple[int, int]]` from the source. -/
abbrev Game := List (Nat × Nat)

/-- The module-level `SNAKES_AND_LADDERS` transition table, verbatim. -/
def SNAKES_AND_LADDERS : List (Nat × Nat) :=
  [(1, 38), (4, 14), (9, 31), (21, 42), (28, 84), (36, 44), (51, 67),
   (71, 91), (80, 100),
   (98, 78), (95, 75), (93, 73), (87, 24), (64, 60), (62, 19), (56, 53),
   (49, 11), (48, 26), (16, 6)]

/-- `SNAKES_AND_LADDERS.get(landed, landed)`: the board remapping. -/
def remap (landed : Nat) : Nat :=
  (SNAKES_AND_LADDERS.lookup landed).getD landed

/-- One turn of the loop body: `landed = place + roll`; if `landed > 100`
the turn is forfeit and the place is unchanged, otherwise the place
becomes the board remapping of `landed`. -/
def roll_step (place roll : Nat) : Nat :=
  if 100 < place + roll then place else remap (place + roll)

/-- The `while True:` loop of `snakes_and_ladders`, driven by an explicit
list of dice rolls.  Each turn appends `(roll, place)` to `moves` and the
game returns the trace as soon as the place is exactly 100.  Returns
`none` if the roll supply is exhausted before the game is won. -/
def playRolls : List Nat → Nat → Game → Option Game
  | [], _, _ => none
  | roll :: rest, place, moves =>
      if roll_step place roll = 100 then
        some (moves ++ [(roll, roll_step place roll)])
      else
        playRolls rest (roll_step place roll) (moves ++ [(roll, roll_step place roll)])

/-- `snakes_and_ladders()`: play one solo game from place 0 with an empty
trace, given the dice-roll stream. -/
def snakes_and_ladders (rolls : List Nat) : Option Game :=
  playRolls rolls 0 []

/-- `int(6 * random.random()) + 1`: one dice roll from a unit-interval
random draw (for draws in `[0, 1)` truncation and floor agree). -/
def rollFromUnit (u : ℚ) : Nat :=
  (Int.floor (6 * u)).toNat + 1

/-- A full game with the randomness source explicit: a stream of unit
draws, each converted to a dice roll as in the source. -/
def play (us : List ℚ) : Option Game :=
  snakes_and_ladders (us.map rollFromUnit)

/-- `sys.maxsize` on a 64-bit build. -/
def maxsize : Nat := 2 ^ 63 - 1

/-- The `BenchmarkResult` dataclass.  `counts` is the histogram of game
length against number of games, `elapsed` the measured seconds,
`num_games` the total number of games played, `shortest`/`longest` the
extremal traces (empty = unset). -/
structure BenchmarkResult where
  counts : Nat → Nat
  elapsed : ℚ
  num_games : Nat
  shortest : Game
  longest : Game

/-- `BenchmarkResult()`: all fields at their dataclass defaults. -/
def BenchmarkResult.identity : BenchmarkResult :=
  { counts := fun _ => 0
    elapsed := 0
    num_games := 0
    shortest := []
    longest := [] }

/-- The `len_not_empty` key of `BenchmarkResult.__add__`: an unset (empty)
trace sorts as `sys.maxsize` so it never wins a shortest comparison. -/
def len_not_empty (value : Game) : Nat :=
  if value.length = 0 then maxsize else value.length

/-- Python `min(a, b, key=f)`: the second argument wins only when its key
is strictly smaller (ties keep the first argument). -/
def pymin (a b : Game) (key : Game → Nat) : Game :=
  if key b < key a then b else a

/-- Python `max(a, b, key=f)`: the second argument wins only when its key
is strictly larger (ties keep the first argument). -/
def pymax (a b : Game) (key : Game → Nat) : Game :=
  if key a < key b then b else a

/-- `BenchmarkResult.__add__`: pointwise histogram sum, summed elapsed
and game counts, and keyed min/max choice of the extremal traces. -/
instance : Add BenchmarkResult :=
  ⟨fun s o =>
    { counts := fun k => s.counts k + o.counts k
      elapsed := s.elapsed + o.elapsed
      num_games := s.num_games + o.num_games
      shortest := pymin s.shortest o.shortest len_not_empty
      longest := pymax s.longest o.longest List.length }⟩

theorem add_counts (a b : BenchmarkResult) :
    (a + b).counts = fun k => a.counts k + b.counts k := rfl

theorem add_elapsed (a b : BenchmarkResult) :
    (a + b).elapsed = a.elapsed + b.elapsed := rfl

theorem add_num_games (a b : BenchmarkResult) :
    (a + b).num_games = a.num_games + b.num_games := rfl

/-- Python's banker's rounding (`round`): round half to even. -/
def pyRound (q : ℚ) : ℤ :=
  let f := Int.floor q
  let r := q - f
  if r < 1 / 2 then f
  else if 1 / 2 < r then f + 1
  else if f % 2 = 0 then f else f + 1

/-- `BenchmarkResult.rate`: `round(num_games / elapsed)`; dividing by a
zero elapsed time raises `ZeroDivisionError`, modelled as `none`. -/
def BenchmarkResult.rate (x : BenchmarkResult) : Option ℤ :=
  if x.elapsed = 0 then none else some (pyRound ((x.num_games : ℚ) / x.elapsed))

lemma remap_le_of_le {n : Nat} (h : n ≤ 100) : remap n ≤ 100 := by
  have hall : ∀ m, m < 101 → remap m ≤ 100 := by decide
  exact hall n (by omega)

lemma roll_step_le {place roll : Nat} (h : place ≤ 100) :
    roll_step place roll ≤ 100 := by
  rw [roll_step]
  by_cases hc : 100 < place + roll
  · rw [if_pos hc]; exact h
  · rw [if_neg hc]; exact remap_le_of_le (by omega)

lemma playRolls_trace :
    ∀ (rolls : List Nat) (place : Nat) (moves g : Game),
      playRolls rolls place moves = some g →
      ∃ ext : Game, g = moves ++ ext ∧ ext.map Prod.fst = rolls.take ext.length := by
  intro rolls
  induction rolls with
  | nil => intro place moves g h; simp [playRolls] at h
  | cons roll rest ih =>
      intro place moves g h
      rw [playRolls] at h
      by_cases hw : roll_step place roll = 100
      · rw [if_pos hw, Option.some_inj] at h
        exact ⟨[(roll, roll_step place roll)], h.symm, by simp⟩
      · rw [if_neg hw] at h
        obtain ⟨ext, hg, hmap⟩ := ih _ _ _ h
        refine ⟨(roll, roll_step place roll) :: ext, by simpa using hg, ?_⟩
        simp [hmap, List.take_succ_cons]

lemma playRolls_last_win :
    ∀ (rolls : List Nat) (place : Nat) (moves g : Game),
      playRolls rolls place moves = some g →
      (∀ m ∈ moves, m.2 ≠ 100) →
      ∃ lastm, g.getLast? = some lastm ∧ lastm.2 = 100 ∧
        ∀ m ∈ g.dropLast, m.2 ≠ 100 := by
  intro rolls
  induction rolls with
  | nil => intro place moves g h _; simp [playRolls] at h
  | cons roll rest ih =>
      intro place moves g h hmoves
      rw [playRolls] at h
      by_cases hw : roll_step place roll = 100
      · rw [if_pos hw, Option.some_inj] at h
        subst h
        refine ⟨(roll, roll_step place roll), ?_, hw, ?_⟩
        · simp
        · simpa using hmoves
      · rw [if_neg hw] at h
        refine ih _ _ _ h ?_
        intro m hm
        rcases List.mem_append.mp hm with hm1 | hm2
        · exact hmoves m hm1
        · simp at hm2; subst hm2; simpa using hw

lemma playRolls_bounds :
    ∀ (rolls : List Nat) (place : Nat) (moves g : Game),
      playRolls rolls place moves = some g →
      place ≤ 100 →
      (∀ r ∈ rolls, 1 ≤ r ∧ r ≤ 6) →
      (∀ m ∈ moves, 1 ≤ m.1 ∧ m.1 ≤ 6 ∧ m.2 ≤ 100) →
      ∀ m ∈ g, 1 ≤ m.1 ∧ m.1 ≤ 6 ∧ m.2 ≤ 100 := by
  intro rolls
  induction rolls with
  | nil => intro place moves g h _ _ _; simp [playRolls] at h
  | cons roll rest ih =>
      intro place moves g h hplace hrolls hmoves
      have hroll : 1 ≤ roll ∧ roll ≤ 6 := hrolls roll (by simp)
      have hstep : roll_step place roll ≤ 100 := roll_step_le hplace
      have hmoves2 : ∀ m ∈ moves ++ [(roll, roll_step place roll)],
          1 ≤ m.1 ∧ m.1 ≤ 6 ∧ m.2 ≤ 100 := by
        intro m hm
        rcases List.mem_append.mp hm with hm1 | hm2
        · exact hmoves m hm1
        · simp at hm2; subst hm2; exact ⟨hroll.1, hroll.2, hstep⟩
      rw [playRolls] at h
      by_cases hw : roll_step place roll = 100
      · rw [if_pos hw, Option.some_inj] at h
        subst h; exact hmoves2
      · rw [if_neg hw] at h
        exact ih _ _ _ h hstep (fun r hr => hrolls r (by simp [hr])) hmoves2

lemma rollFromUnit_mem {u : ℚ} (h0 : 0 ≤ u) (h1 : u < 1) :
    1 ≤ rollFromUnit u ∧ rollFromUnit u ≤ 6 := by
  rw [rollFromUnit]
  have hf0 : (0 : ℤ) ≤ Int.floor (6 * u) := by positivity
  have hf5 : Int.floor (6 * u) ≤ 5 := by
    have : (6 : ℚ) * u < 6 := by linarith
    have h6 : Int.floor (6 * u) < 6 := by
      exact_mod_cast Int.floor_lt.mpr (by push_cast; linarith)
    omega
  omega

/-- C2: a turn overshooting 100 forfeits (place unchanged) yet is still
recorded; otherwise the place becomes the board remapping of the landed
square; the trace is returned exactly when the place is 100, so the last
recorded move is at 100 and no earlier recorded move is. -/
theorem forfeit_and_exact_win :
    (∀ place roll : Nat, 100 < place + roll → roll_step place roll = place) ∧
    (∀ place roll : Nat, place + roll ≤ 100 →
        roll_step place roll = remap (place + roll)) ∧
    (∀ (roll : Nat) (rest : List Nat) (place : Nat) (moves : Game),
        roll_step place roll = 100 →
        playRolls (roll :: rest) place moves =
          some (moves ++ [(roll, roll_step place roll)])) ∧
    (∀ (roll : Nat) (rest : List Nat) (place : Nat) (moves : Game),
        roll_step place roll ≠ 100 →
        playRolls (roll :: rest) place moves =
          playRolls rest (roll_step place roll)
            (moves ++ [(roll, roll_step place roll)])) ∧
    (∀ (rolls : List Nat) (g : Game), snakes_and_ladders rolls = some g →
        g.map Prod.fst = rolls.take g.length ∧
        ∃ lastm, g.getLast? = some lastm ∧ lastm.2 = 100 ∧
          ∀ m ∈ g.dropLast, m.2 ≠ 100) := by
  refine ⟨?_, ?_, ?_, ?_, ?_⟩
  · intro place roll h; rw [roll_step, if_pos h]
  · intro place roll h; rw [roll_step, if_neg (by omega)]
  · intro roll rest place moves h; rw [playRolls, if_pos h]
  · intro roll rest place moves h; rw [playRolls, if_neg h]
  · intro rolls g h
    obtain ⟨ext, hg, hmap⟩ := playRolls_trace rolls 0 [] g h
    have hge : g = ext := by simpa using hg
    subst hge
    refine ⟨hmap, playRolls_last_win rolls 0 [] g h (by simp)⟩

theorem forfeit_and_exact_win_witness :
    roll_step 99 6 = 99 ∧
    roll_step 26 2 = remap 28 ∧
    playRolls [6] 94 [] = some ([] ++ [(6, roll_step 94 6)]) ∧
    playRolls [3, 4] 0 [] =
      playRolls [4] (roll_step 0 3) ([] ++ [(3, roll_step 0 3)]) ∧
    ([(4, 14), (6, 20), (6, 26), (2, 84), (5, 89), (5, 94),
        (6, 100)] : Game).map Prod.fst =
      ([4, 6, 6, 2, 5, 5, 6] : List Nat).take
        ([(4, 14), (6, 20), (6, 26), (2, 84), (5, 89), (5, 94),
          (6, 100)] : Game).length :=
  ⟨forfeit_and_exact_win.1 99 6 (by decide),
   forfeit_and_exact_win.2.1 26 2 (by decide),
   forfeit_and_exact_win.2.2.1 6 [] 94 [] (by decide),
   forfeit_and_exact_win.2.2.2.1 3 [4] 0 [] (by decide),
   (forfeit_and_exact_win.2.2.2.2 [4, 6, 6, 2, 5, 5, 6]
      [(4, 14), (6, 20), (6, 26), (2, 84), (5, 89), (5, 94), (6, 100)]
      (by decide)).1⟩

/-- C5: every trace a game returns only contains rolls in `{1,...,6}` and
positions in `[0, 100]` (positions are naturals, so the lower bound is
implicit), provided the unit draws lie in `[0, 1)`. -/
theorem play_trace_invariants (us : List ℚ) (hus : ∀ u ∈ us, 0 ≤ u ∧ u < 1)
    (g : Game) (hg : play us = some g) :
    ∀ m ∈ g, 1 ≤ m.1 ∧ m.1 ≤ 6 ∧ m.2 ≤ 100 := by
  refine playRolls_bounds (us.map rollFromUnit) 0 [] g hg (by omega) ?_ (by simp)
  intro r hr
  obtain ⟨u, hu, hru⟩ := List.mem_map.mp hr
  subst hru
  exact rollFromUnit_mem (hus u hu).1 (hus u hu).2

theorem play_trace_invariants_witness :
    1 ≤ ((6, 100) : Nat × Nat).1 ∧ ((6, 100) : Nat × Nat).1 ≤ 6 ∧
      ((6, 100) : Nat × Nat).2 ≤ 100 :=
  play_trace_invariants [7/12, 11/12, 11/12, 1/4, 3/4, 3/4, 11/12]
    (by norm_num)
    [(4, 14), (6, 20), (6, 26), (2, 84), (5, 89), (5, 94), (6, 100)]
    (by
      have h : (([7/12, 11/12, 11/12, 1/4, 3/4, 3/4, 11/12] : List ℚ).map
          rollFromUnit) = [4, 6, 6, 2, 5, 5, 6] := by
        simp [rollFromUnit]
        norm_num [Int.floor_eq_iff]
        decide
      rw [play, snakes_and_ladders, h]
      decide)
    (6, 100) (by decide)

/-- C9: with the randomness source producing rolls 4,6,6,2,5,5,6 (unit
draws shown explicitly), the game is the literal 7-move win ending at
position 100. -/
theorem deterministic_seven_move_game :
    snakes_and_ladders [4, 6, 6, 2, 5, 5, 6] =
      some [(4, 14), (6, 20), (6, 26), (2, 84), (5, 89), (5, 94),
        (6, 100)] ∧
    play [7/12, 11/12, 11/12, 1/4, 3/4, 3/4, 11/12] =
      some [(4, 14), (6, 20), (6, 26), (2, 84), (5, 89), (5, 94),
        (6, 100)] := by
  constructor
  · decide
  · have h : (([7/12, 11/12, 11/12, 1/4, 3/4, 3/4, 11/12] : List ℚ).map
        rollFromUnit) = [4, 6, 6, 2, 5, 5, 6] := by
      simp [rollFromUnit]
      norm_num [Int.floor_eq_iff]
      decide
    rw [play, snakes_and_ladders, h]
    decide

theorem add_shortest (a b : BenchmarkResult) :
    (a + b).shortest = pymin a.shortest b.shortest len_not_empty := rfl

theorem add_longest (a b : BenchmarkResult) :
    (a + b).longest = pymax a.longest b.longest List.length := rfl

lemma BenchmarkResult.ext_fields {a b : BenchmarkResult}
    (h1 : a.counts = b.counts) (h2 : a.elapsed = b.elapsed)
    (h3 : a.num_games = b.num_games) (h4 : a.shortest = b.shortest)
    (h5 : a.longest = b.longest) : a = b := by
  cases a; cases b; simp_all

/-- C1: combining results is associative and commutative on the exact
fields: histograms and total game counts agree under either grouping and
either order. -/
theorem combine_assoc_comm (a b c : BenchmarkResult) :
    ((a + b) + c).counts = (a + (b + c)).counts ∧
    ((a + b) + c).num_games = (a + (b + c)).num_games ∧
    (a + b).counts = (b + a).counts ∧
    (a + b).num_games = (b + a).num_games := by
  refine ⟨funext fun k => ?_, ?_, funext fun k => ?_, ?_⟩ <;>
    simp only [add_counts, add_num_games] <;> omega

/-- C4: combining any result with the identity aggregate gives it back
unchanged (stated with Python's hard bound `len(list) ≤ sys.maxsize` on
the shortest trace, under which the empty-trace sentinel never wins). -/
theorem combine_identity (x : BenchmarkResult)
    (h : x.shortest.length ≤ maxsize) :
    x + BenchmarkResult.identity = x := by
  refine BenchmarkResult.ext_fields ?_ ?_ ?_ ?_ ?_
  · exact funext fun k => Nat.add_zero _
  · exact add_elapsed x _ |>.trans (add_zero _)
  · exact Nat.add_zero _
  · rw [add_shortest, pymin]
    have hnil : len_not_empty BenchmarkResult.identity.shortest = maxsize := rfl
    have hkey : ¬ len_not_empty BenchmarkResult.identity.shortest <
        len_not_empty x.shortest := by
      rw [hnil, len_not_empty]
      split_ifs with hs
      · omega
      · omega
    rw [if_neg hkey]
  · rw [add_longest, pymax]
    have hkey : ¬ x.longest.length < BenchmarkResult.identity.longest.length := by
      show ¬ x.longest.length < ([] : Game).length
      simp
    rw [if_neg hkey]

theorem combine_identity_witness :
    (BenchmarkResult.mk (fun _ => 3) 2 5 [(1, 38)] [(2, 2), (6, 8)]) +
        BenchmarkResult.identity =
      BenchmarkResult.mk (fun _ => 3) 2 5 [(1, 38)] [(2, 2), (6, 8)] :=
  combine_identity _ (by show 1 ≤ maxsize; rw [maxsize]; omega)

/-- C10: the `rate` property divides by the elapsed time, so it raises a
`ZeroDivisionError` (here: `none`) exactly when `elapsed` is zero — in
particular on the freshly constructed identity aggregate. -/
theorem rate_division_by_zero (x : BenchmarkResult) :
    (x.rate = none ↔ x.elapsed = 0) ∧
    BenchmarkResult.identity.elapsed = 0 ∧
    BenchmarkResult.identity.rate = none := by
  refine ⟨?_, rfl, rfl⟩
  rw [BenchmarkResult.rate]
  split_ifs with h
  · simp [h]
  · simp [h]

/-- The loop body of `play_count`: for each completed game bump the
histogram at its length and update the extremal traces exactly as the
source does (`not shortest or num_moves < len(shortest)` and
`num_moves > len(longest)`). -/
def play_count_loop : List Game → (Nat → Nat) → Game → Game →
    ((Nat → Nat) × Game × Game)
  | [], counts, shortest, longest => (counts, shortest, longest)
  | moves :: rest, counts, shortest, longest =>
      play_count_loop rest
        (fun k => if k = moves.length then counts k + 1 else counts k)
        (if shortest = [] ∨ moves.length < shortest.length then moves
          else shortest)
        (if longest.length < moves.length then moves else longest)

/-- `play_count`: play `num_games` solo games.  The simulator's output for
the i-th iteration and the timer's measured span are environment inputs
(`sim`, `elapsed`); the result's `num_games` field is the argument, and
the histogram and extremal traces come from folding the loop body over
the played games. -/
def play_count (num_games : Nat) (sim : Nat → Game) (elapsed : ℚ) :
    BenchmarkResult :=
  { counts := (play_count_loop ((List.range num_games).map sim)
      (fun _ => 0) [] []).1
    elapsed := elapsed
    num_games := num_games
    shortest := (play_count_loop ((List.range num_games).map sim)
      (fun _ => 0) [] []).2.1
    longest := (play_count_loop ((List.range num_games).map sim)
      (fun _ => 0) [] []).2.2 }

/-- C8 (counterexample): `play_count 0` still reports the timer's
measured span, so with a positive clock reading the result is not the
identity aggregate (whose elapsed is zero). -/
theorem play_count_zero_not_identity :
    play_count 0 (fun _ => []) 1 ≠ BenchmarkResult.identity := by
  intro h
  have he := congrArg BenchmarkResult.elapsed h
  rw [show (play_count 0 (fun _ => []) 1).elapsed = 1 from rfl] at he
  rw [show BenchmarkResult.identity.elapsed = 0 from rfl] at he
  norm_num at he

/-- C8 (amended): `play_count 0` never consults the simulator and returns
the identity aggregate except for the elapsed field, which holds the
timer's measured (possibly nonzero) reading. -/
theorem play_count_zero (sim sim2 : Nat → Game) (e : ℚ) :
    play_count 0 sim e = play_count 0 sim2 e ∧
    play_count 0 sim e =
      { counts := fun _ => 0
        elapsed := e
        num_games := 0
        shortest := []
        longest := [] } := by
  exact ⟨rfl, rfl⟩

/-- Insert a key into an ascending list (helper for `sorted`). -/
def insertSorted (x : Nat) : List Nat → List Nat
  | [] => [x]
  | y :: ys => if x ≤ y then x :: y :: ys else y :: insertSorted x ys

/-- Python's `sorted` on the histogram keys (ascending insertion sort). -/
def sortKeys : List Nat → List Nat
  | [] => []
  | x :: xs => insertSorted x (sortKeys xs)

/-- `counter[key]`: a `Counter` lookup, zero for a missing key. -/
def counterGet : List (Nat × Nat) → Nat → Nat
  | [], _ => 0
  | (k2, v) :: rest, k => if k = k2 then v else counterGet rest k

/-- The scan loop of `multiset_median`: walk the sorted keys keeping a
running cumulative count; record the first key reaching `lowerPos`
(resp. `upperPos`) and break once the upper one is found. -/
def medianScan : List Nat → List (Nat × Nat) → Nat → Nat → Nat →
    Option Nat → Option Nat → Option Nat × Option Nat
  | [], _, _, _, _, lowerV, upperV => (lowerV, upperV)
  | k :: keys, counter, lowerPos, upperPos, count, lowerV, upperV =>
      let count2 := count + counterGet counter k
      let lowerV2 := if lowerV = none ∧ lowerPos ≤ count2 then some k
        else lowerV
      if upperV = none ∧ upperPos ≤ count2 then (lowerV2, some k)
      else medianScan keys counter lowerPos upperPos count2 lowerV2 upperV

/-- `multiset_median(counter, high=, low=)`: exact median of a multiset
given as a histogram.  Raises (`Except.error`) when both flavours are
requested or when the data is empty; otherwise interpolates the middle
two positions as the standard library's `statistics` module does. -/
def multiset_median (counter : List (Nat × Nat)) (high low : Bool) :
    Except String ℚ :=
  if high && low then
    Except.error "Only one of the high and low arguments may be true"
  else
    let counter_total := (counter.map Prod.snd).sum
    let middle : ℚ := (counter_total + 1) / 2
    let lower_pos : Nat := (Int.floor middle).toNat
    let upper_pos : Nat := (Int.ceil middle).toNat
    let scanned := medianScan (sortKeys (counter.map Prod.fst)) counter
      lower_pos upper_pos 0 none none
    match scanned.1, scanned.2 with
    | some lower_value, some upper_value =>
        if lower_pos = upper_pos then Except.ok lower_value
        else if high then Except.ok upper_value
        else if low then Except.ok lower_value
        else Except.ok (((lower_value : ℚ) + upper_value) / 2)
    | _, _ => Except.error "Cannot calculate median of empty Counter"




lemma ceil_five_halves : Int.ceil ((5 : ℚ) / 2) = 3 := by
  rw [Int.ceil_eq_iff]; norm_num

lemma ceil_three_halves : Int.ceil ((3 : ℚ) / 2) = 2 := by
  rw [Int.ceil_eq_iff]; norm_num

lemma ceil_two : Int.ceil ((4 : ℚ) / 2) = 2 := by
  rw [Int.ceil_eq_iff]; norm_num

/-- C3: `multiset_median` computes the floor/ceil middle positions and
scans the sorted keys cumulatively: {7:1, 8:2, 9:1} gives default 8.0,
high 8, low 8; {5:1, 100:1} gives default 52.5, high 100, low 5; and when
the two middle positions coincide (odd total, {3:1, 9:2}) the middle key
is returned exactly regardless of mode. -/
theorem multiset_median_examples :
    multiset_median [(7, 1), (8, 2), (9, 1)] false false = Except.ok 8 ∧
    multiset_median [(7, 1), (8, 2), (9, 1)] true false = Except.ok 8 ∧
    multiset_median [(7, 1), (8, 2), (9, 1)] false true = Except.ok 8 ∧
    multiset_median [(5, 1), (100, 1)] false false = Except.ok (105 / 2) ∧
    multiset_median [(5, 1), (100, 1)] true false = Except.ok 100 ∧
    multiset_median [(5, 1), (100, 1)] false true = Except.ok 5 ∧
    multiset_median [(3, 1), (9, 2)] false false = Except.ok 9 ∧
    multiset_median [(3, 1), (9, 2)] true false = Except.ok 9 ∧
    multiset_median [(3, 1), (9, 2)] false true = Except.ok 9 := by
  refine ⟨?_, ?_, ?_, ?_, ?_, ?_, ?_, ?_, ?_⟩
  · norm_num [multiset_median, medianScan, sortKeys, insertSorted, counterGet,
      ceil_five_halves]
  · norm_num [multiset_median, medianScan, sortKeys, insertSorted, counterGet,
      ceil_five_halves]
  · norm_num [multiset_median, medianScan, sortKeys, insertSorted, counterGet,
      ceil_five_halves]
  · norm_num [multiset_median, medianScan, sortKeys, insertSorted, counterGet,
      ceil_three_halves, Option.some_ne_none]
    decide
  · norm_num [multiset_median, medianScan, sortKeys, insertSorted, counterGet,
      ceil_three_halves, Option.some_ne_none]
    decide
  · norm_num [multiset_median, medianScan, sortKeys, insertSorted, counterGet,
      ceil_three_halves, Option.some_ne_none]
  · norm_num [multiset_median, medianScan, sortKeys, insertSorted, counterGet,
      ceil_two]
  · norm_num [multiset_median, medianScan, sortKeys, insertSorted, counterGet,
      ceil_two]
  · norm_num [multiset_median, medianScan, sortKeys, insertSorted, counterGet,
      ceil_two]

lemma insertSorted_perm (x : Nat) : ∀ l : List Nat, List.Perm (insertSorted x l) (x :: l) := by
  intro l
  induction l with
  | nil => simp [insertSorted]
  | cons y ys ih =>
      rw [insertSorted]
      by_cases h : x ≤ y
      · rw [if_pos h]
      · rw [if_neg h]
        exact (ih.cons y).trans (List.Perm.swap x y ys)

lemma sortKeys_perm : ∀ l : List Nat, List.Perm (sortKeys l) l := by
  intro l
  induction l with
  | nil => simp [sortKeys]
  | cons x xs ih =>
      rw [sortKeys]
      exact (insertSorted_perm x (sortKeys xs)).trans (ih.cons x)

lemma counterGet_sum :
    ∀ counter : List (Nat × Nat), (counter.map Prod.fst).Nodup →
      ((counter.map Prod.fst).map (counterGet counter)).sum =
        (counter.map Prod.snd).sum := by
  intro counter
  induction counter with
  | nil => intro _; rfl
  | cons p rest ih =>
      intro hnd
      obtain ⟨k2, v⟩ := p
      simp only [List.map_cons, List.sum_cons] at hnd ⊢
      rw [List.nodup_cons] at hnd
      have hhead : counterGet ((k2, v) :: rest) k2 = v := by
        rw [counterGet, if_pos rfl]
      have htail : (rest.map Prod.fst).map (counterGet ((k2, v) :: rest)) =
          (rest.map Prod.fst).map (counterGet rest) := by
        apply List.map_congr_left
        intro a ha
        rw [counterGet, if_neg]
        intro hak
        exact hnd.1 (hak ▸ ha)
      rw [hhead, htail, ih hnd.2]

lemma counterGet_eq_zero (counter : List (Nat × Nat))
    (h : (counter.map Prod.snd).sum = 0) : ∀ k, counterGet counter k = 0 := by
  induction counter with
  | nil => intro k; rfl
  | cons p rest ih =>
      intro k
      obtain ⟨k2, v⟩ := p
      simp only [List.map_cons, List.sum_cons] at h
      rw [counterGet]
      split_ifs
      · omega
      · exact ih (by omega) k

lemma medianScan_zero (counter : List (Nat × Nat))
    (hzero : ∀ k, counterGet counter k = 0) (upperPos : Nat)
    (hpos : 0 < upperPos) :
    ∀ (keys : List Nat) (lowerPos : Nat) (lowerV : Option Nat),
      (medianScan keys counter lowerPos upperPos 0 lowerV none).2 = none := by
  intro keys
  induction keys with
  | nil => intro lowerPos lowerV; rfl
  | cons k ks ih =>
      intro lowerPos lowerV
      simp only [medianScan, hzero k, Nat.add_zero]
      rw [if_neg (fun hc => absurd hc.2 (by omega))]
      exact ih lowerPos _

lemma medianScan_total :
    ∀ (keys : List Nat) (counter : List (Nat × Nat))
      (lowerPos upperPos count : Nat) (lowerV : Option Nat),
      lowerPos ≤ upperPos →
      count < upperPos →
      upperPos ≤ count + (keys.map (counterGet counter)).sum →
      ∃ lv uv, medianScan keys counter lowerPos upperPos count lowerV none =
        (some lv, some uv) := by
  intro keys
  induction keys with
  | nil =>
      intro counter lowerPos upperPos count lowerV h1 h2 h3
      simp only [List.map_nil, List.sum_nil, Nat.add_zero] at h3
      exact absurd h3 (by omega)
  | cons k ks ih =>
      intro counter lowerPos upperPos count lowerV h1 h2 h3
      simp only [medianScan]
      by_cases hstop : upperPos ≤ count + counterGet counter k
      · rw [if_pos (show _ ∧ _ from ⟨by trivial, hstop⟩)]
        rcases hl : lowerV with _ | l
        · refine ⟨k, k, ?_⟩
          rw [if_pos (show _ ∧ _ from ⟨by trivial, le_trans h1 hstop⟩)]
        · refine ⟨l, k, ?_⟩
          rw [if_neg (fun hc => by simp at hc)]
      · rw [if_neg (fun hc => hstop hc.2)]
        apply ih
        · exact h1
        · omega
        · simp only [List.map_cons, List.sum_cons] at h3
          omega


lemma median_position_facts (t : ℕ) (ht : 1 ≤ t) :
    (Int.floor (((t : ℚ) + 1) / 2)).toNat ≤
      (Int.ceil (((t : ℚ) + 1) / 2)).toNat ∧
    0 < (Int.ceil (((t : ℚ) + 1) / 2)).toNat ∧
    (Int.ceil (((t : ℚ) + 1) / 2)).toNat ≤ t := by
  have hfc : Int.floor (((t : ℚ) + 1) / 2) ≤ Int.ceil (((t : ℚ) + 1) / 2) :=
    Int.floor_le_ceil _
  have hcpos : 0 < Int.ceil (((t : ℚ) + 1) / 2) :=
    Int.ceil_pos.mpr (by positivity)
  have hct : Int.ceil (((t : ℚ) + 1) / 2) ≤ (t : ℤ) := by
    apply Int.ceil_le.mpr
    rw [div_le_iff₀ (by norm_num)]
    push_cast
    have h1 : (1 : ℚ) ≤ (t : ℚ) := by exact_mod_cast ht
    linarith
  omega

/-- C7: `multiset_median` errors out when both the high and low flavours
are requested, and errors on empty data (an empty multiset, i.e. a zero
total count — in particular an empty histogram); with at most one flavour
set and a non-empty multiset it always returns a value.  The `Nodup`
hypothesis is the `Counter` invariant of unique keys. -/
theorem multiset_median_error_conditions (counter : List (Nat × Nat))
    (high low : Bool) (hnd : (counter.map Prod.fst).Nodup) :
    (high = true → low = true →
      multiset_median counter high low =
        Except.error "Only one of the high and low arguments may be true") ∧
    ((high && low) = false → (counter.map Prod.snd).sum = 0 →
      ∃ msg, multiset_median counter high low = Except.error msg) ∧
    ((high && low) = false → 0 < (counter.map Prod.snd).sum →
      ∃ q, multiset_median counter high low = Except.ok q) := by
  refine ⟨?_, ?_, ?_⟩
  · intro h1 h2
    rw [multiset_median, if_pos (by rw [h1, h2]; rfl)]
  · intro hb h0
    simp only [multiset_median, hb, Bool.false_eq_true, if_false]
    have hpos : 0 < (Int.ceil ((((counter.map Prod.snd).sum : ℚ) + 1) /
        2)).toNat := by
      have hc := Int.ceil_pos.mpr
        (show (0 : ℚ) < (((counter.map Prod.snd).sum : ℚ) + 1) / 2 by positivity)
      omega
    have hscan := medianScan_zero counter (counterGet_eq_zero counter h0) _ hpos
      (sortKeys (counter.map Prod.fst))
      (Int.floor ((((counter.map Prod.snd).sum : ℚ) + 1) / 2)).toNat none
    rcases hsc1 : (medianScan (sortKeys (counter.map Prod.fst)) counter
        (Int.floor ((((counter.map Prod.snd).sum : ℚ) + 1) / 2)).toNat
        (Int.ceil ((((counter.map Prod.snd).sum : ℚ) + 1) / 2)).toNat
        0 none none).1 with _ | lv
    · exact ⟨_, by rw [hscan]⟩
    · exact ⟨_, by rw [hscan]⟩
  · intro hb ht
    simp only [multiset_median, hb, Bool.false_eq_true, if_false]
    obtain ⟨hlu, hupos, hutot⟩ :=
      median_position_facts (counter.map Prod.snd).sum ht
    have hsum : ((sortKeys (counter.map Prod.fst)).map
        (counterGet counter)).sum = (counter.map Prod.snd).sum := by
      rw [List.Perm.sum_eq (List.Perm.map (counterGet counter)
        (sortKeys_perm (counter.map Prod.fst)))]
      exact counterGet_sum counter hnd
    obtain ⟨lv, uv, hscan⟩ := medianScan_total
      (sortKeys (counter.map Prod.fst)) counter
      (Int.floor ((((counter.map Prod.snd).sum : ℚ) + 1) / 2)).toNat
      (Int.ceil ((((counter.map Prod.snd).sum : ℚ) + 1) / 2)).toNat
      0 none hlu hupos (by rw [Nat.zero_add, hsum]; exact hutot)
    rw [hscan]
    split_ifs <;> exact ⟨_, rfl⟩

theorem multiset_median_error_conditions_witness :
    multiset_median [(7, 1)] true true =
      Except.error "Only one of the high and low arguments may be true" ∧
    (∃ msg, multiset_median [] false false = Except.error msg) ∧
    (∃ q, multiset_median [(7, 1)] false false = Except.ok q) :=
  ⟨(multiset_median_error_conditions [(7, 1)] true true (by simp)).1 rfl rfl,
   (multiset_median_error_conditions [] false false (by simp)).2.1 rfl rfl,
   (multiset_median_error_conditions [(7, 1)] false false (by simp)).2.2 rfl
     (by simp)⟩

/-- The `start` filter of `currency_series`: yield only values at or
above the requested floor (`start is None or value >= start`). -/
def currencyKeep (start : Option Nat) (value : Nat) : Bool :=
  match start with
  | none => true
  | some st => decide (st ≤ value)

/-- A finite prefix of the `currency_series` generator: `tiers` rounds of
the outer loop, each yielding `s * multiplier` for `s` in `(1, 2, 5)`
subject to the `start` filter, the multiplier growing tenfold per round.
The source's generator is infinite; the prefix length is model fuel. -/
def currencyList (start : Option Nat) : Nat → Nat → List Nat
  | 0, _ => []
  | tiers + 1, multiplier =>
      (([1, 2, 5].map (fun s => s * multiplier)).filter (currencyKeep start))
        ++ currencyList start tiers (multiplier * 10)

/-- `currency_series(start)` truncated to `tiers` decades, with the
multiplier starting at 1 as in the source. -/
def currency_series (start : Option Nat) (tiers : Nat) : List Nat :=
  currencyList start tiers 1

lemma currencyList_shape :
    ∀ (tiers : Nat) (start : Option Nat) (multiplier v : Nat),
      v ∈ currencyList start tiers multiplier →
      ∃ s ∈ ([1, 2, 5] : List Nat), ∃ k, v = s * (multiplier * 10 ^ k) := by
  intro tiers
  induction tiers with
  | zero => intro start multiplier v h; simp [currencyList] at h
  | succ n ih =>
      intro start multiplier v h
      rw [currencyList, List.mem_append] at h
      rcases h with h1 | h2
      · obtain ⟨s, hs, rfl⟩ := List.mem_map.mp (List.mem_of_mem_filter h1)
        exact ⟨s, hs, 0, by ring⟩
      · obtain ⟨s, hs, k, hk⟩ := ih start (multiplier * 10) v h2
        exact ⟨s, hs, k + 1, by rw [hk]; ring⟩

lemma currencyList_start_le :
    ∀ (tiers : Nat) (st : Nat) (multiplier v : Nat),
      v ∈ currencyList (some st) tiers multiplier → st ≤ v := by
  intro tiers
  induction tiers with
  | zero => intro st multiplier v h; simp [currencyList] at h
  | succ n ih =>
      intro st multiplier v h
      rw [currencyList, List.mem_append] at h
      rcases h with h1 | h2
      · have hk := List.of_mem_filter h1
        exact of_decide_eq_true hk
      · exact ih st (multiplier * 10) v h2

lemma currencyList_mult_le :
    ∀ (tiers : Nat) (start : Option Nat) (multiplier v : Nat),
      v ∈ currencyList start tiers multiplier → multiplier ≤ v := by
  intro tiers
  induction tiers with
  | zero => intro start multiplier v h; simp [currencyList] at h
  | succ n ih =>
      intro start multiplier v h
      rw [currencyList, List.mem_append] at h
      rcases h with h1 | h2
      · obtain ⟨s, hs, rfl⟩ := List.mem_map.mp (List.mem_of_mem_filter h1)
        have hs1 : 1 ≤ s := by
          simp only [List.mem_cons, List.not_mem_nil, or_false] at hs
          rcases hs with rfl | rfl | rfl <;> omega
        calc multiplier = 1 * multiplier := (one_mul _).symm
          _ ≤ s * multiplier := Nat.mul_le_mul_right _ hs1
      · have := ih start (multiplier * 10) v h2
        omega

lemma currencyList_pairwise :
    ∀ (tiers : Nat) (start : Option Nat) (multiplier : Nat),
      List.Pairwise (· ≤ ·) (currencyList start tiers multiplier) := by
  intro tiers
  induction tiers with
  | zero => intro start multiplier; simp [currencyList]
  | succ n ih =>
      intro start multiplier
      rw [currencyList]
      rw [List.pairwise_append]
      refine ⟨?_, ih start (multiplier * 10), ?_⟩
      · apply List.Pairwise.filter
        rw [List.pairwise_map]
        simp [List.pairwise_cons]
        omega
      · intro a ha b hb
        obtain ⟨s, hs, rfl⟩ :=
          List.mem_map.mp (List.mem_of_mem_filter ha)
        have hb10 : multiplier * 10 ≤ b := currencyList_mult_le n _ _ b hb
        have hs5 : s ≤ 5 := by
          simp only [List.mem_cons, List.not_mem_nil, or_false] at hs
          rcases hs with rfl | rfl | rfl <;> omega
        have : s * multiplier ≤ 5 * multiplier := Nat.mul_le_mul_right _ hs5
        omega

/-- One loop iteration environment for `play_time`: the batch's measured
elapsed seconds and the simulator outcomes for its games. -/
abbrev BatchEnv := ℚ × (Nat → Game)

/-- The loop of `play_time`: for each target total from the currency
series, play the difference (`count = total_games - previous.num_games`),
fold it into the running aggregate, and stop returning the aggregate as
soon as its elapsed time exceeds `seconds`.  `none` means the finite
series/environment prefix (model fuel) was exhausted first. -/
def play_time_go (seconds : ℚ) :
    List Nat → List BatchEnv → BenchmarkResult → Option BenchmarkResult
  | t :: ts, (e, sim) :: envs, previous =>
      if seconds <
          (previous + play_count (t - previous.num_games) sim e).elapsed then
        some (previous + play_count (t - previous.num_games) sim e)
      else
        play_time_go seconds ts envs
          (previous + play_count (t - previous.num_games) sim e)
  | _, _, _ => none

/-- `play_time(seconds)`: loop over `currency_series(start=100)` starting
from the empty aggregate `BenchmarkResult()`. -/
def play_time (seconds : ℚ) (envs : List BatchEnv) (tiers : Nat) :
    Option BenchmarkResult :=
  play_time_go seconds (currency_series (some 100) tiers) envs
    BenchmarkResult.identity

lemma play_time_go_num_games (seconds : ℚ) :
    ∀ (targets : List Nat) (envs : List BatchEnv) (prev r : BenchmarkResult),
      play_time_go seconds targets envs prev = some r →
      List.Pairwise (· ≤ ·) targets →
      (∀ t ∈ targets, prev.num_games ≤ t) →
      r.num_games ∈ targets := by
  intro targets
  induction targets with
  | nil =>
      intro envs prev r h _ _
      cases envs <;> simp [play_time_go] at h
  | cons t ts ih =>
      intro envs prev r h hpw hle
      cases envs with
      | nil => simp [play_time_go] at h
      | cons env envs2 =>
          obtain ⟨e, sim⟩ := env
          rw [play_time_go] at h
          have hng :
              (prev + play_count (t - prev.num_games) sim e).num_games = t := by
            rw [add_num_games]
            show prev.num_games + (t - prev.num_games) = t
            have := hle t (by simp)
            omega
          have hpw2 := List.pairwise_cons.mp hpw
          split_ifs at h with hstop
          · rw [Option.some_inj] at h
            subst h
            simp [hng]
          · have hmem := ih envs2 _ r h hpw2.2 ?_
            · exact List.mem_cons_of_mem _ hmem
            · intro t2 ht2
              rw [hng]
              exact hpw2.1 t2 ht2

lemma play_time_go_elapsed (seconds : ℚ) :
    ∀ (targets : List Nat) (envs : List BatchEnv) (prev r : BenchmarkResult),
      play_time_go seconds targets envs prev = some r →
      prev.elapsed ≤ seconds →
      ∃ n, 0 < n ∧ n ≤ envs.length ∧
        r.elapsed = prev.elapsed + ((envs.take n).map Prod.fst).sum ∧
        seconds < r.elapsed ∧
        ∀ j, 0 < j → j < n →
          prev.elapsed + ((envs.take j).map Prod.fst).sum ≤ seconds := by
  intro targets
  induction targets with
  | nil =>
      intro envs prev r h _
      cases envs <;> simp [play_time_go] at h
  | cons t ts ih =>
      intro envs prev r h hprev
      cases envs with
      | nil => simp [play_time_go] at h
      | cons env envs2 =>
          obtain ⟨e, sim⟩ := env
          rw [play_time_go] at h
          have helap :
              (prev + play_count (t - prev.num_games) sim e).elapsed =
                prev.elapsed + e := rfl
          split_ifs at h with hstop
          · rw [Option.some_inj] at h
            subst h
            refine ⟨1, by omega, by simp, ?_, ?_, ?_⟩
            · simp [helap]
            · exact hstop
            · intro j hj0 hj1; omega
          · rw [helap] at hstop
            obtain ⟨n, hn0, hnlen, hre, hrs, hbound⟩ :=
              ih envs2 _ r h (le_of_not_lt hstop)
            refine ⟨n + 1, by omega, by simpa using hnlen, ?_, hrs, ?_⟩
            · rw [hre, helap]
              simp [List.take_succ_cons, add_assoc]
            · intro j hj0 hjn
              rcases j with _ | j2
              · omega
              · rcases j2 with _ | j3
                · simpa using le_of_not_lt hstop
                · have hb := hbound (j3 + 1) (by omega) (by omega)
                  rw [helap] at hb
                  simpa [List.take_succ_cons, add_assoc] using hb

/-- C6: whenever `play_time` returns, the total number of games is a
currency-series value `s * 10 ^ k` with `s ∈ {1, 2, 5}` that is at least
the floor of 100, and the loop stops exactly after the first batch whose
cumulative elapsed time exceeds the requested seconds. -/
theorem play_time_currency (seconds : ℚ) (envs : List BatchEnv)
    (tiers : Nat) (r : BenchmarkResult) (hsec : 0 ≤ seconds)
    (h : play_time seconds envs tiers = some r) :
    (∃ s ∈ ([1, 2, 5] : List Nat), ∃ k, r.num_games = s * 10 ^ k) ∧
    100 ≤ r.num_games ∧
    seconds < r.elapsed ∧
    ∃ n, 0 < n ∧ n ≤ envs.length ∧
      r.elapsed = ((envs.take n).map Prod.fst).sum ∧
      ∀ j, 0 < j → j < n → ((envs.take j).map Prod.fst).sum ≤ seconds := by
  have hmem := play_time_go_num_games seconds _ envs _ r h
    (currencyList_pairwise tiers (some 100) 1)
    (fun t _ => Nat.zero_le t)
  obtain ⟨s, hs, k, hk⟩ := currencyList_shape tiers (some 100) 1 _ hmem
  obtain ⟨n, hn0, hnlen, hre, hrs, hbound⟩ :=
    play_time_go_elapsed seconds _ envs _ r h (by exact hsec)
  refine ⟨⟨s, hs, k, by rw [hk]; ring⟩, ?_, hrs, n, hn0, hnlen, ?_, ?_⟩
  · exact currencyList_start_le tiers 100 1 _ hmem
  · rw [hre]
    show (0 : ℚ) + _ = _
    rw [zero_add]
  · intro j hj0 hjn
    have hb := hbound j hj0 hjn
    rw [show BenchmarkResult.identity.elapsed = 0 from rfl, zero_add] at hb
    exact hb

theorem play_time_currency_witness :
    (0 : ℚ) <
      (BenchmarkResult.identity +
        play_count 100 (fun _ => ([] : Game)) 1).elapsed ∧
    100 ≤
      (BenchmarkResult.identity +
        play_count 100 (fun _ => ([] : Game)) 1).num_games := by
  have hcs : currency_series (some 100) 3 = [100, 200, 500] := by decide
  have hone : (0 : ℚ) <
      (BenchmarkResult.identity +
        play_count (100 - BenchmarkResult.identity.num_games)
          (fun _ => ([] : Game)) 1).elapsed := by
    show (0 : ℚ) < BenchmarkResult.identity.elapsed + 1
    rw [show BenchmarkResult.identity.elapsed = 0 from rfl]
    norm_num
  have hrun : play_time 0 [(1, fun _ => ([] : Game))] 3 =
      some (BenchmarkResult.identity +
        play_count 100 (fun _ => ([] : Game)) 1) := by
    rw [play_time, hcs, play_time_go, if_pos hone]
    rfl
  have hc := play_time_currency 0 [(1, fun _ => ([] : Game))] 3 _ le_rfl hrun
  exact ⟨hc.2.2.1, hc.2.1⟩
